import Mathlib

/-!
Verification of the LetsDraw collaborative drawing history against its
JavaScript source.  The server-side history engine lives in
Server/drawing-state.js (class DrawingState) and Server/server.js (the
socket event handlers); the client-side sequencer lives in
client/src/utils/conflictResolver.jsx (class ActionSequencer) and the
receive pipeline in client/src/App.jsx.  Each definition below is a direct
shallow embedding of the corresponding JavaScript function; JavaScript
numbers are modelled as rationals (or integers where the code only ever
holds integers), undefined object fields as `none`, and arrays as lists.
-/

namespace LetsDraw

/-- Payload record of a drawing action, with the fields the JavaScript code
inspects.  A field holding `none` models an undefined (absent) field of the
JavaScript object.  `timestamp` is the producer-local timestamp written by
createStrokeAction on the client; `userId` is the copy of the producer id
the server spreads into the payload in the draw handler. -/
structure StrokeData where
  x : Option ℚ
  y : Option ℚ
  color : Option String
  size : Option ℚ
  tool : Option String
  timestamp : Option ℚ
  userId : Option String
  deriving Repr, DecidableEq

/-- Stroke payload with every field absent (an empty data object). -/
def StrokeData.undef : StrokeData := ⟨none, none, none, none, none, none, none⟩

/-- Server-side DrawingAction from drawing-state.js.  The constructor also
assigns an `id` (producer id, Date.now and a random suffix) and a
`timestamp` (new Date()); both are impure identification metadata that no
inspected server logic ever reads, so they are omitted from the embedding. -/
structure DrawingAction where
  userId : String
  type : String
  data : StrokeData
  deriving Repr, DecidableEq

/-- History bound of DrawingState (`this.maxHistorySize = 500`). -/
def maxHistorySize : Nat := 500

/-- Server-side DrawingState from drawing-state.js: the per-room history
array and the undo/redo cursor (`this.history = []; this.currentIndex = -1`). -/
structure DrawingState where
  history : List DrawingAction
  currentIndex : Int
  deriving Repr, DecidableEq

/-- Fresh DrawingState, as built by the constructor. -/
def DrawingState.empty : DrawingState := ⟨[], -1⟩

/-- Models JavaScript `arr.slice(0, e)` for an arbitrary integer end index:
a negative end index counts from the end of the array. -/
def jsTake {α : Type} (l : List α) (e : Int) : List α :=
  if 0 ≤ e then l.take e.toNat else l.take ((l.length : Int) + e).toNat

/-- DrawingState.addAction: drop the redo tail if the cursor is not at the
end, push the new action, advance the cursor, and evict the oldest entry
(shift, cursor decrement) when the bound is exceeded.  Returns the new
state together with the pushed action. -/
def DrawingState.addAction (s : DrawingState) (userId type : String) (data : StrokeData) :
    DrawingState × DrawingAction :=
  let truncated :=
    if s.currentIndex < (s.history.length : Int) - 1 then
      jsTake s.history (s.currentIndex + 1)
    else s.history
  let action : DrawingAction := ⟨userId, type, data⟩
  let pushed := truncated ++ [action]
  let idx := s.currentIndex + 1
  if (maxHistorySize : Int) < pushed.length then
    (⟨pushed.drop 1, idx - 1⟩, action)
  else
    (⟨pushed, idx⟩, action)

/-- DrawingState.undo: when the cursor is nonnegative, return the entry at
the cursor and decrement it; otherwise return null. -/
def DrawingState.undo (s : DrawingState) : DrawingState × Option DrawingAction :=
  if 0 ≤ s.currentIndex then
    (⟨s.history, s.currentIndex - 1⟩, s.history[s.currentIndex.toNat]?)
  else
    (s, none)

/-- DrawingState.redo: when the cursor is before the last entry, increment
it and return the entry now at the cursor; otherwise return null. -/
def DrawingState.redo (s : DrawingState) : DrawingState × Option DrawingAction :=
  if s.currentIndex < (s.history.length : Int) - 1 then
    (⟨s.history, s.currentIndex + 1⟩, s.history[(s.currentIndex + 1).toNat]?)
  else
    (s, none)

/-- DrawingState.getHistory: the active slice `history.slice(0, currentIndex + 1)`. -/
def DrawingState.getHistory (s : DrawingState) : List DrawingAction :=
  jsTake s.history (s.currentIndex + 1)

/-- DrawingState.canUndo. -/
def DrawingState.canUndo (s : DrawingState) : Bool :=
  decide (0 ≤ s.currentIndex)

/-- DrawingState.canRedo. -/
def DrawingState.canRedo (s : DrawingState) : Bool :=
  decide (s.currentIndex < (s.history.length : Int) - 1)

/-- DrawingState.clear: erases the whole history (`this.history = [];
this.currentIndex = -1`).  Note the server socket handler for the clear
event does not call this; it appends a clear-typed action instead. -/
def DrawingState.clearAll (_s : DrawingState) : DrawingState := ⟨[], -1⟩

/-- Well-formedness of a DrawingState: the cursor stays in
`[-1, history.length - 1]` and the history respects the bound.  This holds
for the fresh state and is preserved by every engine operation. -/
def DrawingState.Wf (s : DrawingState) : Prop :=
  -1 ≤ s.currentIndex ∧ s.currentIndex < (s.history.length : Int) ∧
    s.history.length ≤ maxHistorySize

instance (s : DrawingState) : Decidable s.Wf := by
  unfold DrawingState.Wf; infer_instance

/-! Server socket handlers from Server/server.js.  Each handler below
models the per-room path taken once the membership check
(`!room || !room.hasUser(socket.id)`) has passed and the room state
exists; stateManager.addAction returns null only when the room state is
missing, so the corresponding error branches of the draw and clear
handlers are unreachable on this path. -/

/-- Message a handler produces: either a broadcast of the named socket
event to every member of the room, or an error emitted only to the
requesting socket. -/
inductive ServerReply where
  | broadcast (event : String) (userId : String) (action : DrawingAction)
  | errorToRequester (message : String)
  deriving Repr, DecidableEq

/-- Client request kinds reaching the handlers. -/
inductive Request where
  | draw (userId : String) (d : StrokeData)
  | undo (userId : String)
  | redo (userId : String)
  | clear (userId : String)
  deriving Repr, DecidableEq

/-- Handler of the draw event: appends a stroke action whose payload is the
client stroke data with the requester id spread in, then broadcasts it. -/
def serverDraw (s : DrawingState) (userId : String) (d : StrokeData) :
    DrawingState × ServerReply :=
  let r := s.addAction userId "stroke" { d with userId := some userId }
  (r.1, .broadcast "draw" userId r.2)

/-- Handler of the undo event: reports "Nothing to undo" to the requester
alone when canUndo fails, otherwise performs the undo and broadcasts the
undone action. -/
def serverUndo (s : DrawingState) (userId : String) : DrawingState × ServerReply :=
  if ¬ s.canUndo then (s, .errorToRequester "Nothing to undo")
  else
    let res := s.undo
    match res.2 with
    | some a => (res.1, .broadcast "undo" userId a)
    | none => (res.1, .errorToRequester "Failed to undo")

/-- Handler of the redo event, symmetric to the undo handler. -/
def serverRedo (s : DrawingState) (userId : String) : DrawingState × ServerReply :=
  if ¬ s.canRedo then (s, .errorToRequester "Nothing to redo")
  else
    let res := s.redo
    match res.2 with
    | some a => (res.1, .broadcast "redo" userId a)
    | none => (res.1, .errorToRequester "Failed to redo")

/-- Handler of the clear event: appends a clear-typed action carrying only
the requester id (it does not call DrawingState.clearAll) and broadcasts it. -/
def serverClear (s : DrawingState) (userId : String) : DrawingState × ServerReply :=
  let r := s.addAction userId "clear" { StrokeData.undef with userId := some userId }
  (r.1, .broadcast "clear" userId r.2)

/-- Dispatch of one request to its handler. -/
def serverStep (s : DrawingState) : Request → DrawingState × ServerReply
  | .draw u d => serverDraw s u d
  | .undo u => serverUndo s u
  | .redo u => serverRedo s u
  | .clear u => serverClear s u

/-- The server is single threaded: an interleaving of concurrent requests
is the arrival order in which the event loop runs the handlers.  Running a
request list yields the final room state and the replies in order. -/
def serverRun (s : DrawingState) : List Request → DrawingState × List ServerReply
  | [] => (s, [])
  | r :: rest =>
    let step := serverStep s r
    let rec' := serverRun step.1 rest
    (rec'.1, step.2 :: rec'.2)

/-! Client-side ActionSequencer from client/src/utils/conflictResolver.jsx.
Actions handed to the sequencer are plain objects with type, userId,
timestamp and data fields; an absent userId is modelled by the empty
string, which the falsy check of the code treats identically. -/

/-- Action as the client sequencer sees it. -/
structure SeqAction where
  type : String
  userId : String
  timestamp : Option ℚ
  data : Option StrokeData
  deriving Repr, DecidableEq

/-- Decides one character of the color regex character class [0-9A-F] with
the i flag. -/
def isHexDigit (c : Char) : Bool :=
  (decide ('0' ≤ c) && decide (c ≤ '9')) || (decide ('A' ≤ c) && decide (c ≤ 'F')) ||
    (decide ('a' ≤ c) && decide (c ≤ 'f'))

/-- Test of the color pattern (a hash sign followed by exactly six hex
digits, case insensitive) shared by _validateStrokeAction and
validateStroke. -/
def isHexColor (s : String) : Bool :=
  match s.toList with
  | '#' :: rest => decide (rest.length = 6) && rest.all isHexDigit
  | _ => false

/-- ActionSequencer._validateStrokeAction: the data object must exist, x
and y must be defined, color must be a string matching the hex pattern,
size must be an integer between 1 and 100, and tool must be brush or
eraser. -/
def validateStrokeAction (a : SeqAction) : Bool :=
  match a.data with
  | none => false
  | some d =>
    if d.x.isNone || d.y.isNone then false
    else
      (match d.color with
       | some c => isHexColor c
       | none => false) &&
      (match d.size with
       | some q => decide (q.den = 1) && decide (1 ≤ q) && decide (q ≤ 100)
       | none => false) &&
      (d.tool == some "brush" || d.tool == some "eraser")

/-- ActionSequencer._validateAction: falsy type or userId and undefined
timestamp are rejected, then the switch on the type dispatches (written
here as the equality chain the switch performs). -/
def validateAction (a : SeqAction) : Bool :=
  if a.type = "" then false
  else if a.userId = "" then false
  else if a.timestamp = none then false
  else if a.type = "stroke" then validateStrokeAction a
  else if a.type = "clear" then true
  else if a.type = "undo" then true
  else if a.type = "redo" then true
  else false

/-- ConflictType constants. -/
inductive ConflictType where
  | noConflict
  | overlappingStroke
  | clearDuringDraw
  | undoAfterDraw
  | orderMismatch
  | staleAction
  deriving Repr, DecidableEq

/-- Resolution record: the strategy string of the code is determined by the
conflict type and never read by the control flow, so only the two fields
the control flow reads are kept. -/
structure Resolution where
  shouldProcess : Bool
  requiresRebuild : Bool
  deriving Repr, DecidableEq

/-- Entry of the conflict log (the timestamp written with it is impure
metadata never read back). -/
structure ConflictLogEntry where
  action : SeqAction
  conflict : ConflictType
  resolution : Resolution
  deriving Repr, DecidableEq

/-- ActionSequencer state. -/
structure ActionSequencer where
  actionQueue : List SeqAction
  processedActions : List SeqAction
  conflictLog : List ConflictLogEntry
  lastProcessedTimestamp : ℚ
  deriving Repr, DecidableEq

/-- Freshly constructed sequencer. -/
def ActionSequencer.init : ActionSequencer := ⟨[], [], [], 0⟩

/-- Queue bound (`this.maxQueueSize = 1000`). -/
def maxQueueSize : Nat := 1000

/-- ActionSequencer.enqueueAction: a null action and an action failing
validation are rejected; at the queue bound the oldest queued action is
shifted out; the action is then pushed (the enqueuedAt and processed
fields added by the push are impure metadata never read by the logic). -/
def ActionSequencer.enqueueAction (s : ActionSequencer) (a : Option SeqAction) :
    ActionSequencer × Bool :=
  match a with
  | none => (s, false)
  | some act =>
    if ¬ validateAction act then (s, false)
    else
      let q := if maxQueueSize ≤ s.actionQueue.length then s.actionQueue.drop 1
               else s.actionQueue
      ({ s with actionQueue := q ++ [act] }, true)

/-- Staleness window of _detectConflict (30000 milliseconds). -/
def staleLimit : ℚ := 30000

/-- Age test `now - action.timestamp > 30000`; with an undefined timestamp
the comparison is a NaN comparison, hence false. -/
def isStale (now : ℚ) : Option ℚ → Bool
  | some t => decide (staleLimit < now - t)
  | none => false

/-- Order test `action.timestamp < this.lastProcessedTimestamp`; false on
an undefined timestamp for the same NaN reason. -/
def precedesLast (last : ℚ) : Option ℚ → Bool
  | some t => decide (t < last)
  | none => false

/-- Filter predicate of the clear-during-draw check: a processed stroke
whose timestamp lies within the last 1000 milliseconds. -/
def isRecentStroke (now : ℚ) (p : SeqAction) : Bool :=
  (p.type == "stroke") &&
    (match p.timestamp with
     | some t => decide (now - t < 1000)
     | none => false)

/-- ActionSequencer._detectConflict. -/
def ActionSequencer.detectConflict (s : ActionSequencer) (now : ℚ) (a : SeqAction) :
    ConflictType :=
  if isStale now a.timestamp then .staleAction
  else if precedesLast s.lastProcessedTimestamp a.timestamp then .orderMismatch
  else if (a.type == "clear") &&
      decide (0 < (s.processedActions.filter (isRecentStroke now)).length) then
    .clearDuringDraw
  else .noConflict

/-- ActionSequencer._resolveConflict: only stale actions are refused; an
order mismatch and a clear during drawing are processed with the rebuild
flag set; the default branch accepts. -/
def resolveConflict : ConflictType → Resolution
  | .noConflict => ⟨true, false⟩
  | .staleAction => ⟨false, false⟩
  | .orderMismatch => ⟨true, true⟩
  | .clearDuringDraw => ⟨true, true⟩
  | .overlappingStroke => ⟨true, false⟩
  | .undoAfterDraw => ⟨true, false⟩

/-- Models `action.timestamp || Date.now()`: an undefined or zero
timestamp (both falsy) falls back to the current time. -/
def tsOrNow (now : ℚ) : Option ℚ → ℚ
  | some t => if t = 0 then now else t
  | none => now

/-- One iteration of the processQueue loop body on a shifted action:
detect a conflict, log and resolve it when present, then either process
the action (push to processedActions, update lastProcessedTimestamp,
return it for the batch) or skip it. -/
def ActionSequencer.processOne (s : ActionSequencer) (now : ℚ) (a : SeqAction) :
    ActionSequencer × Option SeqAction :=
  let c := s.detectConflict now a
  if c = .noConflict then
    ({ s with processedActions := s.processedActions ++ [a],
              lastProcessedTimestamp := tsOrNow now a.timestamp }, some a)
  else
    let r := resolveConflict c
    let s' := { s with conflictLog := s.conflictLog ++ [⟨a, c, r⟩] }
    if r.shouldProcess then
      ({ s' with processedActions := s'.processedActions ++ [a],
                 lastProcessedTimestamp := tsOrNow now a.timestamp }, some a)
    else
      (s', none)

/-- Drains a list of shifted actions through processOne, collecting the
processed batch in order. -/
def processAll (now : ℚ) : ActionSequencer → List SeqAction → ActionSequencer × List SeqAction
  | s, [] => (s, [])
  | s, a :: rest =>
    let step := s.processOne now a
    let rest' := processAll now step.1 rest
    (rest'.1, match step.2 with | some b => b :: rest'.2 | none => rest'.2)

/-- ActionSequencer.processQueue: shifts every queued action out of the
queue and runs it through conflict handling, at one instant `now`. -/
def ActionSequencer.processQueue (s : ActionSequencer) (now : ℚ) :
    ActionSequencer × List SeqAction :=
  processAll now { s with actionQueue := [] } s.actionQueue

/-- ActionSequencer.needsRebuild. -/
def ActionSequencer.needsRebuild (s : ActionSequencer) : Bool :=
  s.conflictLog.any (fun e => e.resolution.requiresRebuild)

/-- Stable insertion of an element into a list sorted by a rational key:
the element stops before the first element of larger or equal key coming
from later in the original list, which preserves the original order of
equal keys. -/
def insertByKey {α : Type} (key : α → ℚ) (a : α) : List α → List α
  | [] => [a]
  | b :: l => if key a ≤ key b then a :: b :: l else b :: insertByKey key a l

/-- Models `arr.sort((a, b) => key(a) - key(b))`: JavaScript sort is
stable, and for this consistent comparator its output is the unique stable
nondecreasing reordering, here computed by stable insertion sort. -/
def jsSortBy {α : Type} (key : α → ℚ) (l : List α) : List α :=
  l.foldr (insertByKey key) []

/-- Timestamp key of the replay sort; every action that passed validation
carries a timestamp, so the fallback is never reached on processed
actions. -/
def tsKey (a : SeqAction) : ℚ := a.timestamp.getD 0

/-- ActionSequencer.getActionsToReplay: the processed stroke actions,
sorted by their timestamps. -/
def ActionSequencer.getActionsToReplay (s : ActionSequencer) : List SeqAction :=
  jsSortBy tsKey (s.processedActions.filter (fun a => a.type == "stroke"))

/-! Stroke tracking from client/src/utils/drawingSync.jsx. -/

/-- validateStroke from drawingSync.jsx: tool, x, y, color, size and
timestamp must all be present (not undefined, not null), coordinates must
lie in the canvas, color must match the hex pattern, size must lie between
1 and 100. -/
def validateStroke (st : Option StrokeData) : Bool :=
  match st with
  | none => false
  | some d =>
    d.tool.isSome && d.x.isSome && d.y.isSome && d.color.isSome && d.size.isSome &&
      d.timestamp.isSome &&
      (match d.x, d.y with
       | some x, some y =>
         decide (0 ≤ x) && decide (x ≤ 1200) && decide (0 ≤ y) && decide (y ≤ 600)
       | _, _ => false) &&
      (match d.color with | some c => isHexColor c | none => false) &&
      (match d.size with | some q => decide (1 ≤ q) && decide (q ≤ 100) | none => false)

/-- DrawingStateTracker state: the local and remote stroke histories (the
undo and redo stacks of the class are only ever cleared or counted, so
they are omitted). -/
structure DrawingStateTracker where
  localHistory : List StrokeData
  remoteHistory : List StrokeData
  deriving Repr, DecidableEq

/-- Freshly constructed tracker. -/
def DrawingStateTracker.init : DrawingStateTracker := ⟨[], []⟩

/-- DrawingStateTracker.addRemoteStroke: validate, push, shift at the
bound. -/
def DrawingStateTracker.addRemoteStroke (tr : DrawingStateTracker) (st : StrokeData) :
    DrawingStateTracker × Bool :=
  if ¬ validateStroke (some st) then (tr, false)
  else
    let h := tr.remoteHistory ++ [st]
    ({ tr with remoteHistory := if maxHistorySize < h.length then h.drop 1 else h }, true)

/-- Timestamp key of the getAllStrokes sort. -/
def strokeTsKey (d : StrokeData) : ℚ := d.timestamp.getD 0

/-- DrawingStateTracker.getAllStrokes: local and remote strokes
concatenated, then sorted by their timestamps. -/
def DrawingStateTracker.getAllStrokes (tr : DrawingStateTracker) : List StrokeData :=
  jsSortBy strokeTsKey (tr.localHistory ++ tr.remoteHistory)

/-! Client receive pipeline from client/src/App.jsx. -/

/-- Client handling of one reply, from the socket callbacks of App.jsx.
A Draw broadcast from another user is wrapped into a stroke action (the
broadcast payload carries no top-level timestamp, so the fallback
`data.timestamp || Date.now()` yields the receipt time `now`), enqueued,
and the queue is processed; a Clear broadcast is wrapped the same way with
no data; Undo and Redo broadcasts are routed to the HistoryManager and
never reach the ActionSequencer; an error reply is shown to its single
requester only. -/
def clientReceive (selfId : String) (now : ℚ) (s : ActionSequencer) :
    ServerReply → ActionSequencer
  | .broadcast ev u act =>
    if ev = "draw" then
      if u = selfId then s
      else
        let a : SeqAction := ⟨"stroke", u, some now, some act.data⟩
        ((s.enqueueAction (some a)).1.processQueue now).1
    else if ev = "clear" then
      if u = selfId then s
      else
        let a : SeqAction := ⟨"clear", u, some now, none⟩
        ((s.enqueueAction (some a)).1.processQueue now).1
    else s
  | .errorToRequester _ => s

/-- Drains every reply of a run through clientReceive, starting from a
fresh sequencer. -/
def clientDrain (selfId : String) (now : ℚ) (replies : List ServerReply) : ActionSequencer :=
  replies.foldl (clientReceive selfId now) ActionSequencer.init

/-! Auxiliary definitions for the claims. -/

/-- Stroke part of the acceptance condition of claim C10, as the claim
states it: the data carries defined x and y, a color matching the hex
pattern, an integer size between 1 and 100, and a brush or eraser tool. -/
def claimStrokeOk : Option StrokeData → Bool
  | some d =>
    d.x.isSome && d.y.isSome &&
    (match d.color with | some c => isHexColor c | none => false) &&
    (match d.size with
     | some q => decide (q.den = 1) && decide (1 ≤ q) && decide (q ≤ 100)
     | none => false) &&
    (d.tool == some "brush" || d.tool == some "eraser")
  | none => false

/-- Acceptance condition of claim C10 as the claim states it: the type is
one of stroke, clear, undo and redo, there is a userId and a defined
timestamp, and a stroke action is additionally accepted only under
claimStrokeOk. -/
def claimAccepts (a : SeqAction) : Bool :=
  (a.type == "stroke" || a.type == "clear" || a.type == "undo" || a.type == "redo") &&
  (a.userId != "") && a.timestamp.isSome &&
  (if a.type = "stroke" then claimStrokeOk a.data else true)

/-- Erases the producer timestamp of a stroke payload, leaving every other
field; two payloads are equal under this map exactly when they differ only
in their timestamps. -/
def StrokeData.eraseTs (d : StrokeData) : StrokeData := { d with timestamp := none }

/-- Erases the producer timestamp inside an engine action payload. -/
def DrawingAction.eraseTs (a : DrawingAction) : DrawingAction :=
  { a with data := a.data.eraseTs }

/-- Concrete well-formed stroke payload used by the witnesses. -/
def sampleStroke : StrokeData :=
  ⟨some 10, some 20, some "#FF0000", some 5, some "brush", some 1, none⟩

/-- Second concrete well-formed stroke payload. -/
def sampleStroke2 : StrokeData :=
  ⟨some 30, some 40, some "#00FF00", some 7, some "eraser", some 2, none⟩

/-- One engine append step of a (userId, type, data) triple, discarding the
returned action; folding it runs a whole request burst. -/
def appendAll (s : DrawingState) (acts : List (String × String × StrokeData)) : DrawingState :=
  acts.foldl (fun st p => (st.addAction p.1 p.2.1 p.2.2).1) s

/-- The DrawingAction built from a (userId, type, data) triple. -/
def mkAction (p : String × String × StrokeData) : DrawingAction := ⟨p.1, p.2.1, p.2.2⟩

/-- States whose cursor sits on the last entry (every state reachable by
appends alone). -/
def DrawingState.AtEnd (s : DrawingState) : Prop :=
  s.currentIndex = (s.history.length : Int) - 1 ∧ s.history.length ≤ maxHistorySize

/-- Draw requests built from (userId, data) pairs. -/
def drawReqs (reqs : List (String × StrokeData)) : List Request :=
  reqs.map (fun p => Request.draw p.1 p.2)

/-- Client-side action a Draw broadcast of payload d from user u turns
into, when received at time now. -/
def seqOf (now : ℚ) (p : String × StrokeData) : SeqAction :=
  ⟨"stroke", p.1, some now, some { p.2 with userId := some p.1 }⟩

/-! Engine lemmas. -/

theorem addAction_snd (s : DrawingState) (u t : String) (d : StrokeData) :
    (s.addAction u t d).2 = ⟨u, t, d⟩ := by
  unfold DrawingState.addAction
  dsimp only
  split <;> split <;> rfl

theorem addAction_eq (s : DrawingState) (h1 : -1 ≤ s.currentIndex)
    (h2 : s.currentIndex < (s.history.length : Int)) (u t : String) (d : StrokeData) :
    s.addAction u t d =
      if maxHistorySize < (s.currentIndex + 1).toNat + 1 then
        (⟨(s.history.take (s.currentIndex + 1).toNat
            ++ [(⟨u, t, d⟩ : DrawingAction)]).drop 1, s.currentIndex⟩,
          (⟨u, t, d⟩ : DrawingAction))
      else
        (⟨s.history.take (s.currentIndex + 1).toNat
            ++ [(⟨u, t, d⟩ : DrawingAction)], s.currentIndex + 1⟩,
          (⟨u, t, d⟩ : DrawingAction)) := by
  have hto : (s.currentIndex + 1).toNat ≤ s.history.length := by omega
  have htr : (if s.currentIndex < (s.history.length : Int) - 1 then
      jsTake s.history (s.currentIndex + 1) else s.history)
      = s.history.take (s.currentIndex + 1).toNat := by
    by_cases hc : s.currentIndex < (s.history.length : Int) - 1
    · rw [if_pos hc]; unfold jsTake; rw [if_pos (by omega)]
    · rw [if_neg hc]
      have hx : (s.currentIndex + 1).toNat = s.history.length := by omega
      rw [hx, List.take_length]
  have hlen : (s.history.take (s.currentIndex + 1).toNat ++ [(⟨u, t, d⟩ : DrawingAction)]).length
      = (s.currentIndex + 1).toNat + 1 := by
    simp [List.length_take]; omega
  simp only [DrawingState.addAction, htr, hlen]
  by_cases hc : maxHistorySize < (s.currentIndex + 1).toNat + 1
  · rw [if_pos (by exact_mod_cast hc), if_pos hc]
    simp
  · rw [if_neg (by exact_mod_cast hc), if_neg hc]

theorem state_post (A : List DrawingAction) (i : Int) (act : DrawingAction)
    (h0 : 0 ≤ i) (hlen : A.length = i.toNat + 1) (hmax : A.length ≤ maxHistorySize)
    (hlast : A[i.toNat]? = some act) :
    ((⟨A, i⟩ : DrawingState)).Wf ∧
    ((⟨A, i⟩ : DrawingState)).currentIndex
      = (((⟨A, i⟩ : DrawingState)).history.length : Int) - 1 ∧
    0 ≤ ((⟨A, i⟩ : DrawingState)).currentIndex ∧
    (((⟨A, i⟩ : DrawingState)).history)[((⟨A, i⟩ : DrawingState)).currentIndex.toNat]?
      = some act := by
  refine ⟨⟨?_, ?_, ?_⟩, ?_, ?_, ?_⟩
  · show -1 ≤ i; omega
  · show i < (A.length : Int); omega
  · show A.length ≤ maxHistorySize; exact hmax
  · show i = (A.length : Int) - 1; omega
  · show 0 ≤ i; exact h0
  · show A[i.toNat]? = some act; exact hlast

theorem addAction_post (s : DrawingState) (h : s.Wf) (u t : String) (d : StrokeData) :
    (s.addAction u t d).1.Wf ∧
    (s.addAction u t d).1.currentIndex = ((s.addAction u t d).1.history.length : Int) - 1 ∧
    0 ≤ (s.addAction u t d).1.currentIndex ∧
    ((s.addAction u t d).1.history)[(s.addAction u t d).1.currentIndex.toNat]?
      = some ⟨u, t, d⟩ := by
  obtain ⟨h1, h2, h3⟩ := h
  have hmax : maxHistorySize = 500 := rfl
  have hto : (s.currentIndex + 1).toNat ≤ s.history.length := by omega
  have hlt : (s.history.take (s.currentIndex + 1).toNat).length = (s.currentIndex + 1).toNat := by
    rw [List.length_take]; omega
  rw [addAction_eq s h1 h2 u t d]
  by_cases hc : maxHistorySize < (s.currentIndex + 1).toNat + 1
  · rw [if_pos hc]
    have hk : (s.currentIndex + 1).toNat = 500 := by omega
    have hdrop : (s.history.take (s.currentIndex + 1).toNat
          ++ [(⟨u, t, d⟩ : DrawingAction)]).drop 1
        = (s.history.take (s.currentIndex + 1).toNat).drop 1
          ++ [(⟨u, t, d⟩ : DrawingAction)] :=
      List.drop_append_of_le_length (by omega)
    rw [hdrop]
    have hdl : ((s.history.take (s.currentIndex + 1).toNat).drop 1).length = 499 := by
      rw [List.length_drop, hlt, hk]
    have hL : ((s.history.take (s.currentIndex + 1).toNat).drop 1
          ++ [(⟨u, t, d⟩ : DrawingAction)]).length = 500 := by
      rw [List.length_append, hdl]; rfl
    have hgoal : s.currentIndex.toNat
        = ((s.history.take (s.currentIndex + 1).toNat).drop 1).length := by
      rw [hdl]; omega
    refine state_post _ _ _ (by omega) (by omega) (by omega) ?_
    rw [hgoal]
    exact List.getElem?_concat_length _ _
  · rw [if_neg hc]
    have hL : (s.history.take (s.currentIndex + 1).toNat
          ++ [(⟨u, t, d⟩ : DrawingAction)]).length = (s.currentIndex + 1).toNat + 1 := by
      rw [List.length_append, hlt]; rfl
    have hgoal : (s.currentIndex + 1).toNat
        = (s.history.take (s.currentIndex + 1).toNat).length := by omega
    refine state_post _ _ _ (by omega) (by omega) (by omega) ?_
    nth_rewrite 2 [hgoal]
    exact List.getElem?_concat_length _ _

theorem wf_mk (A : List DrawingAction) (i : Int) (h1 : -1 ≤ i) (h2 : i < (A.length : Int))
    (h3 : A.length ≤ maxHistorySize) : ((⟨A, i⟩ : DrawingState)).Wf :=
  ⟨h1, h2, h3⟩

theorem atEnd_mk (A : List DrawingAction) (i : Int) (h1 : i = (A.length : Int) - 1)
    (h2 : A.length ≤ maxHistorySize) : ((⟨A, i⟩ : DrawingState)).AtEnd :=
  ⟨h1, h2⟩

theorem addAction_atEnd (s : DrawingState) (h : s.AtEnd) (u t : String) (d : StrokeData) :
    (s.addAction u t d).1.history
      = (if s.history.length = maxHistorySize then s.history.drop 1 else s.history)
        ++ [(⟨u, t, d⟩ : DrawingAction)] ∧
    (s.addAction u t d).1.AtEnd := by
  obtain ⟨he, hb⟩ := h
  have hmax : maxHistorySize = 500 := rfl
  have h1 : -1 ≤ s.currentIndex := by omega
  have h2 : s.currentIndex < (s.history.length : Int) := by omega
  have hk : (s.currentIndex + 1).toNat = s.history.length := by omega
  have htake : s.history.take (s.currentIndex + 1).toNat = s.history := by
    rw [hk, List.take_length]
  rw [addAction_eq s h1 h2 u t d, htake]
  by_cases hc : maxHistorySize < (s.currentIndex + 1).toNat + 1
  · rw [if_pos hc]
    have hfull : s.history.length = maxHistorySize := by omega
    have hdrop : (s.history ++ [(⟨u, t, d⟩ : DrawingAction)]).drop 1
        = s.history.drop 1 ++ [(⟨u, t, d⟩ : DrawingAction)] :=
      List.drop_append_of_le_length (by omega)
    constructor
    · show (s.history ++ [(⟨u, t, d⟩ : DrawingAction)]).drop 1 = _
      rw [hdrop, if_pos hfull]
    · refine atEnd_mk _ _ ?_ ?_
      · rw [List.length_drop, List.length_append, List.length_singleton]; omega
      · rw [List.length_drop, List.length_append, List.length_singleton]; omega
  · rw [if_neg hc]
    have hnot : s.history.length ≠ maxHistorySize := by omega
    constructor
    · show s.history ++ [(⟨u, t, d⟩ : DrawingAction)] = _
      rw [if_neg hnot]
    · refine atEnd_mk _ _ ?_ ?_
      · rw [List.length_append, List.length_singleton]; omega
      · rw [List.length_append, List.length_singleton]; omega

theorem appendAll_history (acts : List (String × String × StrokeData)) :
    ∀ s : DrawingState, s.AtEnd →
      (appendAll s acts).history
        = (s.history ++ acts.map mkAction).drop
            (s.history.length + acts.length - maxHistorySize) ∧
      (appendAll s acts).AtEnd := by
  induction acts with
  | nil =>
    intro s hs
    refine ⟨?_, hs⟩
    show s.history = _
    simp only [List.length_nil, List.map_nil, List.append_nil]
    have hz : s.history.length + 0 - maxHistorySize = 0 := by
      have := hs.2; omega
    rw [hz, List.drop_zero]
  | cons a rest ih =>
    intro s hs
    obtain ⟨hh, hend⟩ := addAction_atEnd s hs a.1 a.2.1 a.2.2
    obtain ⟨ih1, ih2⟩ := ih (s.addAction a.1 a.2.1 a.2.2).1 hend
    refine ⟨?_, ih2⟩
    show (appendAll (s.addAction a.1 a.2.1 a.2.2).1 rest).history = _
    rw [ih1, hh]
    simp only [List.map_cons, List.length_cons]
    have hmax : maxHistorySize = 500 := rfl
    by_cases hf : s.history.length = maxHistorySize
    · rw [if_pos hf]
      have hlen1 : (s.history.drop 1 ++ [(⟨a.1, a.2.1, a.2.2⟩ : DrawingAction)]).length
          = s.history.length := by
        rw [List.length_append, List.length_drop, List.length_singleton]; omega
      rw [hlen1, List.append_assoc, List.singleton_append]
      have hsw : s.history.drop 1 ++ ((⟨a.1, a.2.1, a.2.2⟩ : DrawingAction) :: rest.map mkAction)
          = (s.history ++ ((⟨a.1, a.2.1, a.2.2⟩ : DrawingAction) :: rest.map mkAction)).drop 1 :=
        (List.drop_append_of_le_length (by omega)).symm
      rw [hsw, List.drop_drop]
      have hmk : (⟨a.1, a.2.1, a.2.2⟩ : DrawingAction) = mkAction a := rfl
      rw [hmk]
      have harith : 1 + (s.history.length + rest.length - maxHistorySize)
          = s.history.length + (rest.length + 1) - maxHistorySize := by omega
      rw [harith]
    · rw [if_neg hf]
      have hlen2 : (s.history ++ [(⟨a.1, a.2.1, a.2.2⟩ : DrawingAction)]).length
          = s.history.length + 1 := by
        rw [List.length_append, List.length_singleton]
      rw [hlen2, List.append_assoc, List.singleton_append]
      have hmk : (⟨a.1, a.2.1, a.2.2⟩ : DrawingAction) = mkAction a := rfl
      rw [hmk]
      have harith : s.history.length + 1 + rest.length - maxHistorySize
          = s.history.length + (rest.length + 1) - maxHistorySize := by omega
      rw [harith]

theorem getHistory_atEnd (s : DrawingState) (h : s.AtEnd) : s.getHistory = s.history := by
  unfold DrawingState.getHistory jsTake
  have h0 : 0 ≤ s.currentIndex + 1 := by
    have := h.1; omega
  rw [if_pos h0]
  have hk : (s.currentIndex + 1).toNat = s.history.length := by
    have := h.1; omega
  rw [hk, List.take_length]

theorem undo_mk (A : List DrawingAction) (i : Int) (hi : 0 ≤ i) :
    ((⟨A, i⟩ : DrawingState)).undo = (⟨A, i - 1⟩, A[i.toNat]?) := by
  show (if 0 ≤ i then ((⟨A, i - 1⟩ : DrawingState), A[i.toNat]?)
    else ((⟨A, i⟩ : DrawingState), none)) = _
  rw [if_pos hi]

theorem getHistory_mk (A : List DrawingAction) (i : Int) (hi : -1 ≤ i) :
    ((⟨A, i⟩ : DrawingState)).getHistory = A.take (i + 1).toNat := by
  show jsTake A (i + 1) = _
  unfold jsTake
  rw [if_pos (by omega)]

theorem serverUndo_eq_of (s : DrawingState) (u : String) (a : DrawingAction)
    (hpos : 0 ≤ s.currentIndex) (hget : s.history[s.currentIndex.toNat]? = some a) :
    serverUndo s u = (⟨s.history, s.currentIndex - 1⟩, .broadcast "undo" u a) := by
  have hcu : s.canUndo = true := by
    simp only [DrawingState.canUndo, decide_eq_true_eq]; exact hpos
  have hres : s.undo = (⟨s.history, s.currentIndex - 1⟩, some a) := by
    unfold DrawingState.undo; rw [if_pos hpos, hget]
  unfold serverUndo
  rw [if_neg (by simp [hcu]), hres]

theorem serverUndo_nothing (s : DrawingState) (u : String) (hneg : s.currentIndex < 0) :
    serverUndo s u = (s, .errorToRequester "Nothing to undo") := by
  unfold serverUndo
  rw [if_pos (by simp only [DrawingState.canUndo, decide_eq_true_eq]; omega)]

/-! Sequencer lemmas. -/

theorem detectConflict_stale (s : ActionSequencer) (now : ℚ) (a : SeqAction)
    (ha : isStale now a.timestamp = true) :
    s.detectConflict now a = .staleAction := by
  unfold ActionSequencer.detectConflict
  rw [if_pos ha]

theorem detectConflict_mismatch (s : ActionSequencer) (now : ℚ) (b : SeqAction)
    (hb1 : isStale now b.timestamp = false)
    (hb2 : precedesLast s.lastProcessedTimestamp b.timestamp = true) :
    s.detectConflict now b = .orderMismatch := by
  unfold ActionSequencer.detectConflict
  rw [if_neg (by simp [hb1]), if_pos hb2]

theorem processOne_stale (s : ActionSequencer) (now : ℚ) (a : SeqAction)
    (ha : isStale now a.timestamp = true) :
    s.processOne now a
      = ({ s with conflictLog := s.conflictLog ++ [⟨a, .staleAction, ⟨false, false⟩⟩] },
         none) := by
  unfold ActionSequencer.processOne
  rw [detectConflict_stale s now a ha]
  rfl

theorem processOne_mismatch (s : ActionSequencer) (now : ℚ) (b : SeqAction)
    (hb1 : isStale now b.timestamp = false)
    (hb2 : precedesLast s.lastProcessedTimestamp b.timestamp = true) :
    s.processOne now b
      = ({ s with
            processedActions := s.processedActions ++ [b],
            conflictLog := s.conflictLog ++ [⟨b, .orderMismatch, ⟨true, true⟩⟩],
            lastProcessedTimestamp := tsOrNow now b.timestamp },
         some b) := by
  unfold ActionSequencer.processOne
  rw [detectConflict_mismatch s now b hb1 hb2]
  rfl

theorem validateStrokeAction_eq_claim (a : SeqAction) :
    validateStrokeAction a = claimStrokeOk a.data := by
  unfold validateStrokeAction claimStrokeOk
  cases a.data with
  | none => rfl
  | some d =>
    rcases hdx : d.x with - | x <;> rcases hdy : d.y with - | y <;>
      rcases hdc : d.color with - | c <;> rcases hdq : d.size with - | q <;>
      simp [hdx, hdy, hdc, hdq, Bool.and_assoc]

theorem validateAction_eq_claimAccepts (a : SeqAction) :
    validateAction a = claimAccepts a := by
  unfold validateAction claimAccepts
  by_cases h1 : a.type = ""
  · simp [h1]
  · by_cases h2 : a.userId = ""
    · simp [h1, h2]
    · by_cases h3 : a.timestamp = none
      · simp [h1, h2, h3]
      · have hts : a.timestamp.isSome = true := Option.isSome_iff_ne_none.mpr h3
        by_cases h4 : a.type = "stroke"
        · simp only [h4, if_neg h1, if_neg h2, if_neg h3, if_pos rfl]
          rw [validateStrokeAction_eq_claim]
          simp [h2, hts, h4]
        · by_cases h5 : a.type = "clear"
          · simp [h1, h2, h3, h4, h5, hts]
          · by_cases h6 : a.type = "undo"
            · simp [h1, h2, h3, h4, h5, h6, hts]
            · by_cases h7 : a.type = "redo"
              · simp [h1, h2, h3, h4, h5, h6, h7, hts]
              · simp [h1, h2, h3, h4, h5, h6, h7]

/-! Server run lemmas. -/

theorem serverRun_draws (reqs : List (String × StrokeData)) : ∀ s : DrawingState,
    serverRun s (drawReqs reqs)
      = (appendAll s (reqs.map (fun p => (p.1, "stroke", { p.2 with userId := some p.1 }))),
         reqs.map (fun p => ServerReply.broadcast "draw" p.1
           (⟨p.1, "stroke", { p.2 with userId := some p.1 }⟩ : DrawingAction))) := by
  induction reqs with
  | nil => intro s; rfl
  | cons p rest ih =>
    intro s
    show serverRun s (Request.draw p.1 p.2 :: drawReqs rest) = _
    simp only [serverRun, List.map_cons]
    rw [show serverStep s (Request.draw p.1 p.2)
        = ((s.addAction p.1 "stroke" { p.2 with userId := some p.1 }).1,
           ServerReply.broadcast "draw" p.1
             (s.addAction p.1 "stroke" { p.2 with userId := some p.1 }).2) from rfl]
    rw [ih, addAction_snd]
    rfl

theorem processOne_fresh_stroke (s : ActionSequencer) (now : ℚ) (a : SeqAction)
    (hstale : isStale now a.timestamp = false) (hstroke : a.type = "stroke") :
    (s.processOne now a).1.processedActions = s.processedActions ++ [a] ∧
    (s.processOne now a).2 = some a ∧
    (s.processOne now a).1.lastProcessedTimestamp = tsOrNow now a.timestamp ∧
    (s.processOne now a).1.actionQueue = s.actionQueue := by
  by_cases hb : precedesLast s.lastProcessedTimestamp a.timestamp = true
  · rw [processOne_mismatch s now a hstale hb]
    exact ⟨rfl, rfl, rfl, rfl⟩
  · have hb' : precedesLast s.lastProcessedTimestamp a.timestamp = false := by
      revert hb; cases precedesLast s.lastProcessedTimestamp a.timestamp <;> simp
    have hc : s.detectConflict now a = .noConflict := by
      unfold ActionSequencer.detectConflict
      rw [if_neg (by simp [hstale]), if_neg (by simp [hb']), if_neg (by simp [hstroke])]
    have hp : s.processOne now a
        = ({ s with
              processedActions := s.processedActions ++ [a],
              lastProcessedTimestamp := tsOrNow now a.timestamp },
           some a) := by
      unfold ActionSequencer.processOne
      rw [hc]
      rfl
    rw [hp]
    exact ⟨rfl, rfl, rfl, rfl⟩

theorem isStale_now_self (now : ℚ) : isStale now (some now) = false := by
  simp only [isStale, staleLimit, decide_eq_false_iff_not]
  rw [sub_self]
  norm_num

/-- One Draw broadcast from another user, received at time now on an empty
queue: the wrapped stroke action passes validation, is enqueued and then
processed by the queue drain (possibly logging an order mismatch, which
does not discard it), landing at the end of the processed actions. -/
theorem clientReceive_draw (s : ActionSequencer) (selfId u : String) (now : ℚ) (d : StrokeData)
    (hne : u ≠ selfId) (huid : u ≠ "")
    (hval : validateStrokeAction ⟨"stroke", u, some now, some d⟩ = true)
    (hq : s.actionQueue = []) :
    (clientReceive selfId now s (.broadcast "draw" u ⟨u, "stroke", d⟩)).processedActions
      = s.processedActions ++ [⟨"stroke", u, some now, some d⟩] ∧
    (clientReceive selfId now s (.broadcast "draw" u ⟨u, "stroke", d⟩)).actionQueue = [] := by
  have hva : validateAction ⟨"stroke", u, some now, some d⟩ = true := by
    unfold validateAction
    rw [if_neg (by simp), if_neg huid, if_neg (by simp), if_pos rfl]
    exact hval
  have hev : clientReceive selfId now s (.broadcast "draw" u ⟨u, "stroke", d⟩)
      = (((s.enqueueAction (some ⟨"stroke", u, some now, some d⟩)).1).processQueue now).1 := by
    have h0 : clientReceive selfId now s (.broadcast "draw" u ⟨u, "stroke", d⟩)
        = (if ("draw" : String) = "draw" then
            if u = selfId then s
            else ((s.enqueueAction (some ⟨"stroke", u, some now,
              some ((⟨u, "stroke", d⟩ : DrawingAction)).data⟩)).1.processQueue now).1
          else if ("draw" : String) = "clear" then
            if u = selfId then s
            else ((s.enqueueAction (some ⟨"clear", u, some now, none⟩)).1.processQueue now).1
          else s) := rfl
    rw [h0, if_pos rfl, if_neg hne]
  have hbody : s.enqueueAction (some ⟨"stroke", u, some now, some d⟩)
      = (if ¬ validateAction ⟨"stroke", u, some now, some d⟩ = true then (s, false)
         else ({ s with actionQueue :=
             (if maxQueueSize ≤ s.actionQueue.length then s.actionQueue.drop 1
              else s.actionQueue) ++ [⟨"stroke", u, some now, some d⟩] }, true)) := rfl
  have henq : (s.enqueueAction (some ⟨"stroke", u, some now, some d⟩)).1
      = { s with actionQueue := [⟨"stroke", u, some now, some d⟩] } := by
    rw [hbody, hva, hq]
    simp [maxQueueSize]
  obtain ⟨hp1, -, -, hp4⟩ := processOne_fresh_stroke
    ({ s with actionQueue := ([] : List SeqAction) }) now
    ⟨"stroke", u, some now, some d⟩ (isStale_now_self now) rfl
  rw [hev, henq]
  exact ⟨hp1, hp4.trans rfl⟩

/-- Draining a run of Draw broadcasts (other users, valid strokes) appends
the wrapped actions to the processed list in canonical order and keeps the
queue empty. -/
theorem clientDrain_draws (selfId : String) (now : ℚ) :
    ∀ (reqs : List (String × StrokeData)) (s : ActionSequencer),
      s.actionQueue = [] →
      (∀ p ∈ reqs, p.1 ≠ selfId ∧ p.1 ≠ "" ∧
        validateStrokeAction
          ⟨"stroke", p.1, some now, some { p.2 with userId := some p.1 }⟩ = true) →
      (List.foldl (clientReceive selfId now) s
          (reqs.map (fun p => ServerReply.broadcast "draw" p.1
            (⟨p.1, "stroke", { p.2 with userId := some p.1 }⟩ : DrawingAction)))).processedActions
        = s.processedActions ++ reqs.map (seqOf now) ∧
      (List.foldl (clientReceive selfId now) s
          (reqs.map (fun p => ServerReply.broadcast "draw" p.1
            (⟨p.1, "stroke", { p.2 with userId := some p.1 }⟩ : DrawingAction)))).actionQueue
        = [] := by
  intro reqs
  induction reqs with
  | nil =>
    intro s hq _
    exact ⟨by simp, hq⟩
  | cons p rest ih =>
    intro s hq hall
    obtain ⟨hp1, hp2, hp3⟩ := hall p (List.mem_cons_self p rest)
    obtain ⟨hstep1, hstep2⟩ :=
      clientReceive_draw s selfId p.1 now { p.2 with userId := some p.1 } hp1 hp2 hp3 hq
    obtain ⟨ih1, ih2⟩ := ih
      (clientReceive selfId now s
        (.broadcast "draw" p.1 ⟨p.1, "stroke", { p.2 with userId := some p.1 }⟩))
      hstep2 (fun q hqm => hall q (List.mem_cons_of_mem _ hqm))
    constructor
    · show (List.foldl _ (clientReceive selfId now s _) _).processedActions = _
      rw [ih1, hstep1, List.append_assoc]
      rfl
    · exact ih2

theorem pairwise_trivial {α : Type} (l : List α) {R : α → α → Prop} (h : ∀ a b, R a b) :
    l.Pairwise R := by
  induction l with
  | nil => exact List.Pairwise.nil
  | cons a t ih => exact List.Pairwise.cons (fun b _ => h a b) ih

theorem jsSortBy_sorted {α : Type} (key : α → ℚ) :
    ∀ l : List α, l.Pairwise (fun a b => key a ≤ key b) → jsSortBy key l = l := by
  intro l
  induction l with
  | nil => intro _; rfl
  | cons a t ih =>
    intro hp
    have hta := List.pairwise_cons.mp hp
    show insertByKey key a (jsSortBy key t) = a :: t
    rw [ih hta.2]
    cases t with
    | nil => rfl
    | cons b t' =>
      show insertByKey key a (b :: t') = a :: b :: t'
      unfold insertByKey
      rw [if_pos (hta.1 b (List.mem_cons_self b t'))]

/-! Claim theorems. -/

/-- C2: after append(A); undo(); append(B), a redo() returns null and
canRedo is false — the append while the cursor sat below the end discarded
the redo tail, so no redo target remains. -/
theorem append_after_undo_invalidates_redo (s : DrawingState) (h : s.Wf)
    (u1 u2 t1 t2 : String) (d1 d2 : StrokeData) :
    (((s.addAction u1 t1 d1).1.undo.1.addAction u2 t2 d2).1.redo).2 = none ∧
    ((s.addAction u1 t1 d1).1.undo.1.addAction u2 t2 d2).1.canRedo = false := by
  obtain ⟨⟨hw1a, hw1b, hw1c⟩, hidx1, hpos1, -⟩ := addAction_post s h u1 t1 d1
  have hundo : (s.addAction u1 t1 d1).1.undo.1
      = (⟨(s.addAction u1 t1 d1).1.history,
          (s.addAction u1 t1 d1).1.currentIndex - 1⟩ : DrawingState) := by
    unfold DrawingState.undo
    rw [if_pos hpos1]
  rw [hundo]
  have hw2 : ((⟨(s.addAction u1 t1 d1).1.history,
      (s.addAction u1 t1 d1).1.currentIndex - 1⟩ : DrawingState)).Wf :=
    wf_mk _ _ (by omega) (by omega) hw1c
  obtain ⟨-, hidx3, -, -⟩ := addAction_post _ hw2 u2 t2 d2
  constructor
  · unfold DrawingState.redo
    rw [if_neg (by omega)]
  · simp only [DrawingState.canRedo, decide_eq_false_iff_not]
    omega

/-- Witness for C2: the chain run from the fresh state. -/
theorem append_after_undo_invalidates_redo_witness :
    DrawingState.empty.Wf ∧
    ((((DrawingState.empty.addAction "u1" "stroke" sampleStroke).1.undo.1.addAction
        "u2" "stroke" sampleStroke2).1.redo).2 = none ∧
      ((DrawingState.empty.addAction "u1" "stroke" sampleStroke).1.undo.1.addAction
        "u2" "stroke" sampleStroke2).1.canRedo = false) :=
  ⟨by decide, append_after_undo_invalidates_redo DrawingState.empty (by decide)
    "u1" "u2" "stroke" "stroke" sampleStroke sampleStroke2⟩

/-- C4 (amended): the Engine performs no validation.  addAction never
fails and appends every input, malformed or not: the action is returned,
becomes the entry at the cursor, and undo becomes available.  Stroke
validation exists only client side (validateStrokeAction). -/
theorem addAction_never_fails (s : DrawingState) (h : s.Wf) (u t : String) (d : StrokeData) :
    (s.addAction u t d).2 = ⟨u, t, d⟩ ∧
    ((s.addAction u t d).1.history)[(s.addAction u t d).1.currentIndex.toNat]?
      = some ⟨u, t, d⟩ ∧
    (s.addAction u t d).1.canUndo = true := by
  obtain ⟨-, -, hpos, hlast⟩ := addAction_post s h u t d
  refine ⟨addAction_snd s u t d, hlast, ?_⟩
  simp only [DrawingState.canUndo, decide_eq_true_eq]
  exact hpos

/-- Witness for C4 (amended) on a malformed stroke payload. -/
theorem addAction_never_fails_witness :
    DrawingState.empty.Wf ∧
    ((DrawingState.empty.addAction "u1" "stroke" StrokeData.undef).2
        = ⟨"u1", "stroke", StrokeData.undef⟩ ∧
      ((DrawingState.empty.addAction "u1" "stroke" StrokeData.undef).1.history)[
        (DrawingState.empty.addAction "u1" "stroke" StrokeData.undef).1.currentIndex.toNat]?
        = some ⟨"u1", "stroke", StrokeData.undef⟩ ∧
      (DrawingState.empty.addAction "u1" "stroke" StrokeData.undef).1.canUndo = true) :=
  ⟨by decide, addAction_never_fails DrawingState.empty (by decide) "u1" "stroke" StrokeData.undef⟩

/-- C4 counterexample: a stroke whose data object is missing every
required field fails the stroke validation, yet the Engine appends it (the
history grows, the cursor advances) and the draw handler broadcasts it;
nothing is rejected at the Engine. -/
theorem malformed_stroke_is_appended :
    validateStrokeAction ⟨"stroke", "u1", some 1, some StrokeData.undef⟩ = false ∧
    (DrawingState.empty.addAction "u1" "stroke" StrokeData.undef).1.history.length = 1 ∧
    (DrawingState.empty.addAction "u1" "stroke" StrokeData.undef).1.currentIndex = 0 ∧
    (serverDraw DrawingState.empty "u1" StrokeData.undef).2
      = .broadcast "draw" "u1"
          ⟨"u1", "stroke", { StrokeData.undef with userId := some "u1" }⟩ := by
  refine ⟨by decide, by decide, by decide, by decide⟩

/-- C5: appending maxHistorySize + k actions (k at least 1) to an empty
history leaves exactly maxHistorySize entries with the oldest k evicted,
and the cursor is adjusted to the last entry so the active slice is the
whole retained history (I1). -/
theorem bounded_history_eviction (acts : List (String × String × StrokeData)) (k : Nat)
    (hk : 1 ≤ k) (hlen : acts.length = maxHistorySize + k) :
    (appendAll DrawingState.empty acts).history = (acts.map mkAction).drop k ∧
    (appendAll DrawingState.empty acts).history.length = maxHistorySize ∧
    (appendAll DrawingState.empty acts).currentIndex = (maxHistorySize : Int) - 1 ∧
    (appendAll DrawingState.empty acts).getHistory
      = (appendAll DrawingState.empty acts).history := by
  have hmax : maxHistorySize = 500 := rfl
  have hempty : DrawingState.empty.AtEnd := ⟨by decide, by decide⟩
  obtain ⟨hh, hend⟩ := appendAll_history acts DrawingState.empty hempty
  have hh2 : (appendAll DrawingState.empty acts).history = (acts.map mkAction).drop k := by
    rw [hh]
    have he : DrawingState.empty.history = ([] : List DrawingAction) := rfl
    rw [he, List.nil_append, List.length_nil]
    have hz : 0 + acts.length - maxHistorySize = k := by omega
    rw [hz]
  have hl : (appendAll DrawingState.empty acts).history.length = maxHistorySize := by
    rw [hh2, List.length_drop, List.length_map]; omega
  refine ⟨hh2, hl, ?_, getHistory_atEnd _ hend⟩
  have h1 := hend.1
  rw [hl] at h1
  exact h1

/-- Witness for C5 with k = 1: appending 501 actions. -/
theorem bounded_history_eviction_witness :
    1 ≤ 1 ∧
    (appendAll DrawingState.empty
        (List.replicate (maxHistorySize + 1) ("u1", "stroke", sampleStroke))).currentIndex
      = (maxHistorySize : Int) - 1 :=
  ⟨by decide,
    (bounded_history_eviction (List.replicate (maxHistorySize + 1) ("u1", "stroke", sampleStroke))
      1 (by decide) (by rw [List.length_replicate])).2.2.1⟩

/-- C7: undo is author agnostic: after an append by client u1 and then an
append by client u2, an undo issued by ANY requester undoes and broadcasts
the action of u2 (the chronologically last), not that of u1, and
decrements the cursor. -/
theorem undo_author_agnostic (s : DrawingState) (h : s.Wf) (u1 u2 requester : String)
    (d1 d2 : StrokeData) :
    (serverUndo (serverDraw (serverDraw s u1 d1).1 u2 d2).1 requester).2
      = .broadcast "undo" requester ⟨u2, "stroke", { d2 with userId := some u2 }⟩ ∧
    (serverUndo (serverDraw (serverDraw s u1 d1).1 u2 d2).1 requester).1.currentIndex
      = (serverDraw (serverDraw s u1 d1).1 u2 d2).1.currentIndex - 1 := by
  obtain ⟨hw1, -, -, -⟩ := addAction_post s h u1 "stroke" { d1 with userId := some u1 }
  obtain ⟨-, -, hpos2, hlast2⟩ :=
    addAction_post (serverDraw s u1 d1).1 hw1 u2 "stroke" { d2 with userId := some u2 }
  have heq := serverUndo_eq_of (serverDraw (serverDraw s u1 d1).1 u2 d2).1 requester
    ⟨u2, "stroke", { d2 with userId := some u2 }⟩ hpos2 hlast2
  rw [heq]
  exact ⟨rfl, rfl⟩

/-- C3 counterexample: from a state with two entries and the cursor on the
first (one undo pending), the clear handler leaves the history length at 2
— the redo tail is discarded by the append, so the length does NOT grow by
one. -/
theorem clear_does_not_grow_history :
    (((DrawingState.empty.addAction "u1" "stroke" sampleStroke).1.addAction
        "u1" "stroke" sampleStroke2).1.undo.1).history.length = 2 ∧
    (serverClear (((DrawingState.empty.addAction "u1" "stroke" sampleStroke).1.addAction
        "u1" "stroke" sampleStroke2).1.undo.1) "u1").1.history.length = 2 := by
  refine ⟨by decide, by decide⟩

/-- C3 (amended): the clear handler appends a clear action instead of
erasing the history: when no eviction occurs (fewer than maxHistorySize
active entries), the ACTIVE SLICE grows by exactly one entry, undo is
available, undo returns that clear action, and after the undo the active
slice is the one from before the clear. -/
theorem clear_appends_undoable_marker (s : DrawingState) (u : String) (h : s.Wf)
    (hroom : s.currentIndex + 1 < (maxHistorySize : Int)) :
    (serverClear s u).2
      = .broadcast "clear" u ⟨u, "clear", { StrokeData.undef with userId := some u }⟩ ∧
    (serverClear s u).1.getHistory.length = s.getHistory.length + 1 ∧
    (serverClear s u).1.canUndo = true ∧
    ((serverClear s u).1.undo).2
      = some ⟨u, "clear", { StrokeData.undef with userId := some u }⟩ ∧
    ((serverClear s u).1.undo).1.getHistory = s.getHistory := by
  obtain ⟨h1, h2, h3⟩ := h
  have hmax : maxHistorySize = 500 := rfl
  have hto : (s.currentIndex + 1).toNat ≤ s.history.length := by omega
  have hlt : (s.history.take (s.currentIndex + 1).toNat).length = (s.currentIndex + 1).toNat := by
    rw [List.length_take]; omega
  have hsc : serverClear s u
      = ((s.addAction u "clear" { StrokeData.undef with userId := some u }).1,
          .broadcast "clear" u
            (s.addAction u "clear" { StrokeData.undef with userId := some u }).2) := rfl
  have hadd : s.addAction u "clear" { StrokeData.undef with userId := some u }
      = (⟨s.history.take (s.currentIndex + 1).toNat
            ++ [(⟨u, "clear", { StrokeData.undef with userId := some u }⟩ : DrawingAction)],
          s.currentIndex + 1⟩,
         (⟨u, "clear", { StrokeData.undef with userId := some u }⟩ : DrawingAction)) := by
    rw [addAction_eq s h1 h2 u "clear" { StrokeData.undef with userId := some u }]
    rw [if_neg (by omega)]
  have hc1 : (serverClear s u).1
      = (⟨s.history.take (s.currentIndex + 1).toNat
            ++ [(⟨u, "clear", { StrokeData.undef with userId := some u }⟩ : DrawingAction)],
          s.currentIndex + 1⟩ : DrawingState) := by
    show (s.addAction u "clear" { StrokeData.undef with userId := some u }).1 = _
    rw [hadd]
  have hc2 : (serverClear s u).2
      = .broadcast "clear" u
          (⟨u, "clear", { StrokeData.undef with userId := some u }⟩ : DrawingAction) := by
    show ServerReply.broadcast "clear" u
      (s.addAction u "clear" { StrokeData.undef with userId := some u }).2 = _
    rw [addAction_snd]
  rw [hc1, hc2]
  have hgetS : s.getHistory = s.history.take (s.currentIndex + 1).toNat := by
    unfold DrawingState.getHistory jsTake
    rw [if_pos (by omega)]
  have hun := undo_mk (s.history.take (s.currentIndex + 1).toNat
      ++ [(⟨u, "clear", { StrokeData.undef with userId := some u }⟩ : DrawingAction)])
    (s.currentIndex + 1) (by omega)
  refine ⟨rfl, ?_, ?_, ?_, ?_⟩
  · rw [getHistory_mk _ _ (by omega)]
    rw [List.length_take, List.length_append, hlt, List.length_singleton, hgetS, hlt]
    omega
  · show decide (0 ≤ s.currentIndex + 1) = true
    simp only [decide_eq_true_eq]
    omega
  · rw [hun]
    show (_ ++ [(⟨u, "clear", { StrokeData.undef with userId := some u }⟩ : DrawingAction)])[
      (s.currentIndex + 1).toNat]? = _
    nth_rewrite 2 [hlt.symm]
    exact List.getElem?_concat_length _ _
  · rw [hun]
    show ((⟨_, s.currentIndex + 1 - 1⟩ : DrawingState)).getHistory = _
    rw [getHistory_mk _ _ (by omega), Int.sub_add_cancel, hgetS]
    nth_rewrite 1 [hlt.symm]
    exact List.take_left _ _

/-- Witness for C3 (amended) from a single-entry state. -/
theorem clear_appends_undoable_marker_witness :
    ((DrawingState.empty.addAction "u1" "stroke" sampleStroke).1.Wf ∧
      (DrawingState.empty.addAction "u1" "stroke" sampleStroke).1.currentIndex + 1
        < (maxHistorySize : Int)) ∧
    ((serverClear (DrawingState.empty.addAction "u1" "stroke" sampleStroke).1 "u2").1.undo).1.getHistory
      = (DrawingState.empty.addAction "u1" "stroke" sampleStroke).1.getHistory :=
  ⟨⟨by decide, by decide⟩,
    (clear_appends_undoable_marker (DrawingState.empty.addAction "u1" "stroke" sampleStroke).1
      "u2" (by decide) (by decide)).2.2.2.2⟩

/-- C6: the undo handler fails exactly when the cursor is -1; on failure
the state is untouched and only the requester is told "Nothing to undo"
(no broadcast); with a nonnegative cursor the entry at the cursor is
returned and broadcast and the cursor is decremented. -/
theorem undo_error_exactly_at_empty (s : DrawingState) (u : String) (h : s.Wf) :
    ((∃ msg, (serverUndo s u).2 = .errorToRequester msg) ↔ s.currentIndex = -1) ∧
    (s.currentIndex = -1 → serverUndo s u = (s, .errorToRequester "Nothing to undo")) ∧
    (0 ≤ s.currentIndex →
      (serverUndo s u).1.history = s.history ∧
      (serverUndo s u).1.currentIndex = s.currentIndex - 1 ∧
      ∃ a, (serverUndo s u).2 = .broadcast "undo" u a ∧
        s.history[s.currentIndex.toNat]? = some a) := by
  by_cases hneg : s.currentIndex = -1
  · rw [serverUndo_nothing s u (by omega)]
    refine ⟨⟨fun _ => hneg, fun _ => ⟨"Nothing to undo", rfl⟩⟩, fun _ => rfl,
      fun hpos => absurd hpos (by omega)⟩
  · have hpos : 0 ≤ s.currentIndex := by have := h.1; omega
    have hlt : s.currentIndex.toNat < s.history.length := by have := h.2.1; omega
    obtain ⟨a, hget⟩ : ∃ a, s.history[s.currentIndex.toNat]? = some a :=
      ⟨_, List.getElem?_eq_getElem hlt⟩
    rw [serverUndo_eq_of s u a hpos hget]
    refine ⟨⟨?_, fun habs => absurd habs hneg⟩, fun habs => absurd habs hneg,
      fun _ => ⟨rfl, rfl, a, rfl, hget⟩⟩
    rintro ⟨msg, hmsg⟩
    exact ServerReply.noConfusion hmsg

/-- Witness for C6 at the fresh state: the error path. -/
theorem undo_error_exactly_at_empty_witness :
    DrawingState.empty.Wf ∧
    (DrawingState.empty.currentIndex = -1 →
      serverUndo DrawingState.empty "u1"
        = (DrawingState.empty, .errorToRequester "Nothing to undo")) :=
  ⟨by decide, (undo_error_exactly_at_empty DrawingState.empty "u1" (by decide)).2.1⟩

/-- C8 counterexample: an action whose timestamp precedes the last
processed timestamp (the already-applied position) is NOT discarded: it is
processed, returned in the batch and appended to the processed actions,
changing the replay state. -/
theorem preceding_timestamp_still_processed :
    precedesLast ((⟨[], [], [], 2000⟩ : ActionSequencer)).lastProcessedTimestamp
      (some 1500) = true ∧
    isStale 2100 (some 1500) = false ∧
    ((⟨[], [], [], 2000⟩ : ActionSequencer).processOne 2100
        ⟨"stroke", "u1", some 1500, some sampleStroke⟩).2
      = some ⟨"stroke", "u1", some 1500, some sampleStroke⟩ ∧
    ((⟨[], [], [], 2000⟩ : ActionSequencer).processOne 2100
        ⟨"stroke", "u1", some 1500, some sampleStroke⟩).1.processedActions
      = [⟨"stroke", "u1", some 1500, some sampleStroke⟩] := by
  have hstale : isStale 2100 (some 1500) = false := by
    simp only [isStale, staleLimit, decide_eq_false_iff_not]
    norm_num
  have hm := processOne_mismatch ⟨[], [], [], 2000⟩ 2100
    ⟨"stroke", "u1", some 1500, some sampleStroke⟩ hstale (by decide)
  refine ⟨by decide, hstale, ?_, ?_⟩
  · rw [hm]
  · rw [hm]
    decide

/-- C8 (amended): only STALE actions (older than 30 seconds) are discarded
silently — not processed, not added to the processed actions, replay state
unchanged; an action whose timestamp merely precedes the last processed
one is flagged ORDER_MISMATCH yet still processed, with the rebuild flag
raised so needsRebuild becomes true. -/
theorem stale_discarded_mismatch_processed (s : ActionSequencer) (now : ℚ) (a b : SeqAction)
    (ha : isStale now a.timestamp = true)
    (hb1 : isStale now b.timestamp = false)
    (hb2 : precedesLast s.lastProcessedTimestamp b.timestamp = true) :
    ((s.processOne now a).1.processedActions = s.processedActions ∧
      (s.processOne now a).2 = none ∧
      (s.processOne now a).1.getActionsToReplay = s.getActionsToReplay ∧
      (s.processOne now a).1.lastProcessedTimestamp = s.lastProcessedTimestamp) ∧
    ((s.processOne now b).1.processedActions = s.processedActions ++ [b] ∧
      (s.processOne now b).2 = some b ∧
      (s.processOne now b).1.needsRebuild = true) := by
  rw [processOne_stale s now a ha, processOne_mismatch s now b hb1 hb2]
  refine ⟨⟨rfl, rfl, rfl, rfl⟩, rfl, rfl, ?_⟩
  simp [ActionSequencer.needsRebuild]

/-- Witness for C8: a stale action at 31000 with timestamp 500, and a
fresh action whose timestamp 1500 precedes the last processed 2000. -/
theorem stale_discarded_mismatch_processed_witness :
    ((⟨[], [], [], 2000⟩ : ActionSequencer).processOne 31000
        ⟨"stroke", "u1", some 500, some sampleStroke⟩).2 = none ∧
    ((⟨[], [], [], 2000⟩ : ActionSequencer).processOne 31000
        ⟨"stroke", "u1", some 1500, some sampleStroke2⟩).1.needsRebuild = true :=
  ⟨(stale_discarded_mismatch_processed ⟨[], [], [], 2000⟩ 31000
      ⟨"stroke", "u1", some 500, some sampleStroke⟩
      ⟨"stroke", "u1", some 1500, some sampleStroke2⟩
      (by simp only [isStale, staleLimit, decide_eq_true_eq]; norm_num)
      (by simp only [isStale, staleLimit, decide_eq_false_iff_not]; norm_num)
      (by decide)).1.2.1,
   (stale_discarded_mismatch_processed ⟨[], [], [], 2000⟩ 31000
      ⟨"stroke", "u1", some 500, some sampleStroke⟩
      ⟨"stroke", "u1", some 1500, some sampleStroke2⟩
      (by simp only [isStale, staleLimit, decide_eq_true_eq]; norm_num)
      (by simp only [isStale, staleLimit, decide_eq_false_iff_not]; norm_num)
      (by decide)).2.2.2⟩

/-- C10: enqueueAction accepts an action exactly under the claimed
condition (type in stroke, clear, undo, redo; a userId; a defined
timestamp; and for strokes defined x and y, a hex color, an integer size
between 1 and 100, and a brush or eraser tool); every other action is
rejected with the sequencer state unchanged, and an accepted action is
pushed onto the queue (shifting the oldest at the bound). -/
theorem enqueueAction_accepts_iff (s : ActionSequencer) (a : SeqAction) :
    ((s.enqueueAction (some a)).2 = claimAccepts a) ∧
    (claimAccepts a = false → s.enqueueAction (some a) = (s, false)) ∧
    (claimAccepts a = true →
      (s.enqueueAction (some a)).1.actionQueue
        = (if maxQueueSize ≤ s.actionQueue.length then s.actionQueue.drop 1
           else s.actionQueue) ++ [a] ∧
      (s.enqueueAction (some a)).1.processedActions = s.processedActions) := by
  have hv := validateAction_eq_claimAccepts a
  have hbody : s.enqueueAction (some a)
      = (if ¬ validateAction a = true then (s, false)
         else ({ s with actionQueue :=
             (if maxQueueSize ≤ s.actionQueue.length then s.actionQueue.drop 1
              else s.actionQueue) ++ [a] }, true)) := rfl
  by_cases hca : claimAccepts a = true
  · have he : s.enqueueAction (some a)
        = ({ s with actionQueue :=
              (if maxQueueSize ≤ s.actionQueue.length then s.actionQueue.drop 1
               else s.actionQueue) ++ [a] }, true) := by
      rw [hbody, hv, hca]
      simp
    rw [he]
    refine ⟨by rw [hca], ?_, fun _ => ⟨rfl, rfl⟩⟩
    intro hf
    rw [hca] at hf
    cases hf
  · have hcf : claimAccepts a = false := by
      revert hca; cases claimAccepts a <;> simp
    have he : s.enqueueAction (some a) = (s, false) := by
      rw [hbody, hv, hcf]
      simp
    rw [he]
    refine ⟨by rw [hcf], fun _ => rfl, ?_⟩
    intro ht
    rw [hcf] at ht
    cases ht

/-- Witness for C10: a well-formed stroke is accepted by enqueueAction. -/
theorem enqueueAction_accepts_iff_witness :
    (ActionSequencer.init.enqueueAction
        (some ⟨"stroke", "u1", some 1, some sampleStroke⟩)).2
      = claimAccepts ⟨"stroke", "u1", some 1, some sampleStroke⟩ :=
  (enqueueAction_accepts_iff ActionSequencer.init
    ⟨"stroke", "u1", some 1, some sampleStroke⟩).1

/-- C9 counterexample: two runs submitting the same strokes except for
their timestamps (the remote histories agree after erasing timestamps),
yet getAllStrokes returns them in different orders, so the rendered result
differs even after erasing the timestamps again. -/
theorem replay_order_depends_on_timestamps :
    ((((DrawingStateTracker.init.addRemoteStroke
          ⟨some 1, some 1, some "#FF0000", some 5, some "brush", some 1, none⟩).1.addRemoteStroke
          ⟨some 2, some 2, some "#00FF00", some 5, some "brush", some 2, none⟩).1.remoteHistory).map
        StrokeData.eraseTs
      = (((DrawingStateTracker.init.addRemoteStroke
          ⟨some 1, some 1, some "#FF0000", some 5, some "brush", some 2, none⟩).1.addRemoteStroke
          ⟨some 2, some 2, some "#00FF00", some 5, some "brush", some 1, none⟩).1.remoteHistory).map
        StrokeData.eraseTs) ∧
    (((DrawingStateTracker.init.addRemoteStroke
          ⟨some 1, some 1, some "#FF0000", some 5, some "brush", some 1, none⟩).1.addRemoteStroke
          ⟨some 2, some 2, some "#00FF00", some 5, some "brush", some 2, none⟩).1.getAllStrokes.map
        StrokeData.eraseTs
      ≠ ((DrawingStateTracker.init.addRemoteStroke
          ⟨some 1, some 1, some "#FF0000", some 5, some "brush", some 2, none⟩).1.addRemoteStroke
          ⟨some 2, some 2, some "#00FF00", some 5, some "brush", some 1, none⟩).1.getAllStrokes.map
        StrokeData.eraseTs) := by
  refine ⟨by decide, by decide⟩

/-- C9 (amended): the ENGINE side of the claim holds — the canonical order
assigned at the engine is append order and never reads producer
timestamps: two draw request runs that differ only in the timestamps
inside the stroke payloads yield histories that agree after erasing those
timestamps, with identical cursors.  The claim fails on the client side
(see the counterexample), where replay sorts by producer timestamps. -/
theorem engine_order_timestamp_independent (reqs1 reqs2 : List (String × StrokeData))
    (h : reqs1.map (fun p => (p.1, p.2.eraseTs)) = reqs2.map (fun p => (p.1, p.2.eraseTs))) :
    (serverRun DrawingState.empty (drawReqs reqs1)).1.history.map DrawingAction.eraseTs
      = (serverRun DrawingState.empty (drawReqs reqs2)).1.history.map DrawingAction.eraseTs ∧
    (serverRun DrawingState.empty (drawReqs reqs1)).1.currentIndex
      = (serverRun DrawingState.empty (drawReqs reqs2)).1.currentIndex := by
  have hempty : DrawingState.empty.AtEnd := ⟨by decide, by decide⟩
  have hlen : reqs1.length = reqs2.length := by
    have hcg := congrArg List.length h
    simpa using hcg
  have hs1 : (serverRun DrawingState.empty (drawReqs reqs1)).1
      = appendAll DrawingState.empty
          (reqs1.map (fun p => (p.1, "stroke", { p.2 with userId := some p.1 }))) := by
    rw [serverRun_draws]
  have hs2 : (serverRun DrawingState.empty (drawReqs reqs2)).1
      = appendAll DrawingState.empty
          (reqs2.map (fun p => (p.1, "stroke", { p.2 with userId := some p.1 }))) := by
    rw [serverRun_draws]
  obtain ⟨hh1, hend1⟩ := appendAll_history
    (reqs1.map (fun p => (p.1, "stroke", { p.2 with userId := some p.1 })))
    DrawingState.empty hempty
  obtain ⟨hh2, hend2⟩ := appendAll_history
    (reqs2.map (fun p => (p.1, "stroke", { p.2 with userId := some p.1 })))
    DrawingState.empty hempty
  simp only [show DrawingState.empty.history = ([] : List DrawingAction) from rfl,
    List.nil_append, List.length_nil, List.length_map, Nat.zero_add] at hh1 hh2
  constructor
  · rw [hs1, hs2, hh1, hh2, List.map_drop, List.map_drop, hlen]
    simp only [List.map_map]
    apply congrArg
    refine Eq.trans ?_ (Eq.trans (congrArg (List.map (fun q : String × StrokeData =>
      (⟨q.1, "stroke", { q.2 with userId := some q.1 }⟩ : DrawingAction))) h) ?_)
    · rw [List.map_map]
      exact List.map_congr_left fun x _ => rfl
    · rw [List.map_map]
      exact List.map_congr_left fun x _ => rfl
  · rw [hs1, hs2]
    have l1 := hend1.1
    have l2 := hend2.1
    have hL : (appendAll DrawingState.empty
          (reqs1.map (fun p => (p.1, "stroke", { p.2 with userId := some p.1 })))).history.length
        = (appendAll DrawingState.empty
            (reqs2.map (fun p => (p.1, "stroke", { p.2 with userId := some p.1 })))).history.length := by
      rw [hh1, hh2, List.length_drop, List.length_drop, List.length_map, List.length_map,
        List.length_map, List.length_map, hlen]
    omega

/-- Witness for C9 (amended): one-element runs differing only in the
stroke timestamp. -/
theorem engine_order_timestamp_independent_witness :
    ([("u1", sampleStroke)].map (fun p => (p.1, p.2.eraseTs))
      = [("u1", { sampleStroke with timestamp := some 99 })].map (fun p => (p.1, p.2.eraseTs))) ∧
    (serverRun DrawingState.empty (drawReqs [("u1", sampleStroke)])).1.currentIndex
      = (serverRun DrawingState.empty
          (drawReqs [("u1", { sampleStroke with timestamp := some 99 })])).1.currentIndex :=
  ⟨by decide,
    (engine_order_timestamp_independent [("u1", sampleStroke)]
      [("u1", { sampleStroke with timestamp := some 99 })] (by decide)).2⟩

/-- C1 counterexample: a run of one draw and one undo.  The Engine's final
active slice is empty, but the client sequencer still replays the undone
stroke: undo broadcasts never reach the ActionSequencer (they go to the
HistoryManager) and processed strokes are never removed, so the sequencer
does not render the Engine's final active slice. -/
theorem undo_run_client_diverges :
    (clientDrain "me" 1000 (serverRun DrawingState.empty
        [Request.draw "u1" sampleStroke, Request.undo "u1"]).2).getActionsToReplay.map
      (fun a => (a.userId, a.data))
    ≠ (serverRun DrawingState.empty
        [Request.draw "u1" sampleStroke, Request.undo "u1"]).1.getHistory.map
      (fun a => (a.userId, some a.data)) := by
  have hsrv : (serverRun DrawingState.empty
      [Request.draw "u1" sampleStroke, Request.undo "u1"]).2
      = [ServerReply.broadcast "draw" "u1"
          ⟨"u1", "stroke", { sampleStroke with userId := some "u1" }⟩,
         ServerReply.broadcast "undo" "u1"
          ⟨"u1", "stroke", { sampleStroke with userId := some "u1" }⟩] := by decide
  have hundoRecv : ∀ t : ActionSequencer,
      clientReceive "me" 1000 t (ServerReply.broadcast "undo" "u1"
        ⟨"u1", "stroke", { sampleStroke with userId := some "u1" }⟩) = t := by
    intro t
    have h0 : clientReceive "me" 1000 t (ServerReply.broadcast "undo" "u1"
        ⟨"u1", "stroke", { sampleStroke with userId := some "u1" }⟩)
        = (if ("undo" : String) = "draw" then
            if ("u1" : String) = "me" then t
            else ((t.enqueueAction (some ⟨"stroke", "u1", some 1000,
              some ((⟨"u1", "stroke", { sampleStroke with userId := some "u1" }⟩ :
                DrawingAction)).data⟩)).1.processQueue 1000).1
          else if ("undo" : String) = "clear" then
            if ("u1" : String) = "me" then t
            else ((t.enqueueAction
              (some ⟨"clear", "u1", some 1000, none⟩)).1.processQueue 1000).1
          else t) := rfl
    rw [h0, if_neg (by decide), if_neg (by decide)]
  have hdrain : clientDrain "me" 1000 (serverRun DrawingState.empty
      [Request.draw "u1" sampleStroke, Request.undo "u1"]).2
      = clientReceive "me" 1000 ActionSequencer.init
          (ServerReply.broadcast "draw" "u1"
            ⟨"u1", "stroke", { sampleStroke with userId := some "u1" }⟩) := by
    rw [hsrv]
    show clientReceive "me" 1000 (clientReceive "me" 1000 ActionSequencer.init
        (ServerReply.broadcast "draw" "u1"
          ⟨"u1", "stroke", { sampleStroke with userId := some "u1" }⟩))
        (ServerReply.broadcast "undo" "u1"
          ⟨"u1", "stroke", { sampleStroke with userId := some "u1" }⟩) = _
    rw [hundoRecv]
  obtain ⟨hpa, -⟩ := clientReceive_draw ActionSequencer.init "me" "u1" 1000
    { sampleStroke with userId := some "u1" } (by decide) (by decide) (by decide) rfl
  have hLHS : (clientDrain "me" 1000 (serverRun DrawingState.empty
      [Request.draw "u1" sampleStroke, Request.undo "u1"]).2).getActionsToReplay
      = [⟨"stroke", "u1", some 1000, some { sampleStroke with userId := some "u1" }⟩] := by
    unfold ActionSequencer.getActionsToReplay
    rw [hdrain, hpa]
    decide
  have hRHS : (serverRun DrawingState.empty
      [Request.draw "u1" sampleStroke, Request.undo "u1"]).1.getHistory = [] := by decide
  rw [hLHS, hRHS]
  decide

/-- C1 (amended): convergence holds for stroke-only runs: for any burst of
at most maxHistorySize draw requests from other users carrying valid
stroke payloads, a client sequencer that drains every broadcast renders
(replays) exactly the Engine's final active slice, user ids and payloads
in canonical order.  Runs containing undo, redo or clear diverge (see the
counterexample): the sequencer never removes processed strokes, and undo
and redo broadcasts bypass it entirely. -/
theorem stroke_only_runs_converge (reqs : List (String × StrokeData)) (selfId : String)
    (now : ℚ) (hlen : reqs.length ≤ maxHistorySize)
    (hprod : ∀ p ∈ reqs, p.1 ≠ selfId ∧ p.1 ≠ "" ∧
      validateStrokeAction
        ⟨"stroke", p.1, some now, some { p.2 with userId := some p.1 }⟩ = true) :
    (clientDrain selfId now
        (serverRun DrawingState.empty (drawReqs reqs)).2).getActionsToReplay.map
      (fun a => (a.userId, a.data))
    = (serverRun DrawingState.empty (drawReqs reqs)).1.getHistory.map
      (fun a => (a.userId, some a.data)) := by
  have hmax : maxHistorySize = 500 := rfl
  have hempty : DrawingState.empty.AtEnd := ⟨by decide, by decide⟩
  have hs1 : (serverRun DrawingState.empty (drawReqs reqs)).1
      = appendAll DrawingState.empty
          (reqs.map (fun p => (p.1, "stroke", { p.2 with userId := some p.1 }))) := by
    rw [serverRun_draws]
  have hs2 : (serverRun DrawingState.empty (drawReqs reqs)).2
      = reqs.map (fun p => ServerReply.broadcast "draw" p.1
          (⟨p.1, "stroke", { p.2 with userId := some p.1 }⟩ : DrawingAction)) := by
    rw [serverRun_draws]
  obtain ⟨hh, hend⟩ := appendAll_history
    (reqs.map (fun p => (p.1, "stroke", { p.2 with userId := some p.1 })))
    DrawingState.empty hempty
  simp only [show DrawingState.empty.history = ([] : List DrawingAction) from rfl,
    List.nil_append, List.length_nil, List.length_map, Nat.zero_add] at hh
  have hz : reqs.length - maxHistorySize = 0 := by omega
  rw [hz, List.drop_zero] at hh
  have hget : (appendAll DrawingState.empty
      (reqs.map (fun p => (p.1, "stroke", { p.2 with userId := some p.1 })))).getHistory
      = (appendAll DrawingState.empty
          (reqs.map (fun p => (p.1, "stroke", { p.2 with userId := some p.1 })))).history :=
    getHistory_atEnd _ hend
  obtain ⟨hcd, -⟩ := clientDrain_draws selfId now reqs ActionSequencer.init rfl hprod
  have hproc : (clientDrain selfId now
      (serverRun DrawingState.empty (drawReqs reqs)).2).processedActions
      = reqs.map (seqOf now) := by
    unfold clientDrain
    rw [hs2, hcd]
    rfl
  have hfilter : (reqs.map (seqOf now)).filter (fun a => a.type == "stroke")
      = reqs.map (seqOf now) := by
    refine List.filter_eq_self.mpr ?_
    intro a ha
    obtain ⟨p, -, rfl⟩ := List.mem_map.mp ha
    rfl
  have hsorted : jsSortBy tsKey (reqs.map (seqOf now)) = reqs.map (seqOf now) := by
    refine jsSortBy_sorted tsKey _ ?_
    refine (List.pairwise_map).mpr ?_
    exact pairwise_trivial reqs (fun a b => le_refl _)
  have hreplay : (clientDrain selfId now
      (serverRun DrawingState.empty (drawReqs reqs)).2).getActionsToReplay
      = reqs.map (seqOf now) := by
    unfold ActionSequencer.getActionsToReplay
    rw [hproc, hfilter, hsorted]
  rw [hreplay, hs1, hget, hh, List.map_map, List.map_map, List.map_map]
  exact List.map_congr_left fun p _ => rfl

/-- Witness for C1 (amended): one draw request from another user. -/
theorem stroke_only_runs_converge_witness :
    [("u1", sampleStroke)].length ≤ maxHistorySize ∧
    (clientDrain "me" 5
        (serverRun DrawingState.empty (drawReqs [("u1", sampleStroke)])).2).getActionsToReplay.map
      (fun a => (a.userId, a.data))
    = (serverRun DrawingState.empty (drawReqs [("u1", sampleStroke)])).1.getHistory.map
      (fun a => (a.userId, some a.data)) :=
  ⟨by decide, stroke_only_runs_converge [("u1", sampleStroke)] "me" 5 (by decide) (by decide)⟩

/-- Witness for C7 at concrete inputs: u2 drew last, u1 requests the undo. -/
theorem undo_author_agnostic_witness :
    DrawingState.empty.Wf ∧
    ((serverUndo (serverDraw (serverDraw DrawingState.empty "u1" sampleStroke).1
        "u2" sampleStroke2).1 "u1").2
      = .broadcast "undo" "u1" ⟨"u2", "stroke", { sampleStroke2 with userId := some "u2" }⟩ ∧
    (serverUndo (serverDraw (serverDraw DrawingState.empty "u1" sampleStroke).1
        "u2" sampleStroke2).1 "u1").1.currentIndex
      = (serverDraw (serverDraw DrawingState.empty "u1" sampleStroke).1
          "u2" sampleStroke2).1.currentIndex - 1) :=
  ⟨by decide, undo_author_agnostic DrawingState.empty (by decide) "u1" "u2" "u1"
    sampleStroke sampleStroke2⟩

end LetsDraw
